import Mathlib

/-!
Verification of the silence-removal video utility (`main.py`).

The algorithmic core is `VideoProcessor.process_video_segments`
(main.py lines 68-101): given the detector's silence intervals
`(start, end)` in seconds and the total duration, it computes the
complementary "keep" segments with a single linear pass, then either
copies the input verbatim (when no keep segment was produced) or
splices the keep segments.  Times in the source are Python floats
holding exact millisecond values divided by 1000; the pass performs
only comparisons and no arithmetic on them, so modelling time as `ℚ`
is faithful.

The job orchestration (`VideoProcessor.run`, lines 35-66) and the UI
entry point (`MainWindow.process_video`, lines 258-272) are modelled
with the external collaborators (ffmpeg, pydub, shutil, int()) as
oracles supplied through an `ExternalWorld` record, and the emitted
log lines / side effects as explicit data.
-/

/-- The `for start, end in silence_ranges` loop of
`process_video_segments` (main.py 72-78), with the running `last_end`
made explicit.  `if start > last_end: segments.append((last_end, start))`
then `last_end = end`; after the loop, `if last_end < total_duration:
segments.append((last_end, total_duration))`. -/
def process_video_segments_loop : List (ℚ × ℚ) → ℚ → ℚ → List (ℚ × ℚ)
  | [], last_end, total_duration =>
      if last_end < total_duration then [(last_end, total_duration)] else []
  | (s, e) :: rest, last_end, total_duration =>
      if last_end < s then
        (last_end, s) :: process_video_segments_loop rest e total_duration
      else
        process_video_segments_loop rest e total_duration

/-- The keep-segment list computed by
`VideoProcessor.process_video_segments` (main.py 68-78): the loop is
entered with `last_end = 0`. -/
def process_video_segments (silence_ranges : List (ℚ × ℚ))
    (total_duration : ℚ) : List (ℚ × ℚ) :=
  process_video_segments_loop silence_ranges 0 total_duration

/-- The action taken by `process_video_segments` after computing the
segments (main.py 80-101): `if not segments:` copy the original file
verbatim, otherwise splice the computed segments. -/
inductive SegmentsAction
  | copy_original
  | splice (segments : List (ℚ × ℚ))
deriving DecidableEq

/-- Branch decision of `process_video_segments` (main.py 80-101). -/
def process_video_segments_action (silence_ranges : List (ℚ × ℚ))
    (total_duration : ℚ) : SegmentsAction :=
  let segments := process_video_segments silence_ranges total_duration
  if segments.isEmpty then .copy_original else .splice segments

/-- The defensive `last_end = max(last_end, end)` variant of the loop
discussed by the spec (§4.1, §9): identical to
`process_video_segments_loop` except for the update of `last_end`. -/
def process_video_segments_max_loop : List (ℚ × ℚ) → ℚ → ℚ → List (ℚ × ℚ)
  | [], last_end, total_duration =>
      if last_end < total_duration then [(last_end, total_duration)] else []
  | (s, e) :: rest, last_end, total_duration =>
      if last_end < s then
        (last_end, s) :: process_video_segments_max_loop rest (max last_end e) total_duration
      else
        process_video_segments_max_loop rest (max last_end e) total_duration

/-- The defensive variant entered with `last_end = 0`. -/
def process_video_segments_max (silence_ranges : List (ℚ × ℚ))
    (total_duration : ℚ) : List (ℚ × ℚ) :=
  process_video_segments_max_loop silence_ranges 0 total_duration

/-- A time point `x` lies in one of the half-open intervals of `l`. -/
def mem_point (x : ℚ) (l : List (ℚ × ℚ)) : Prop :=
  ∃ p ∈ l, p.1 ≤ x ∧ x < p.2

/-- Log messages emitted through `update_log` by `VideoProcessor`
(main.py 38, 47, 60, 62, 81, 85); `critical` carries the description
of the caught failure. -/
inductive LogMsg
  | extracting
  | analyzing
  | no_silence
  | assembling (n : Nat)
  | done
  | critical (desc : String)
deriving DecidableEq

/-- Is a log line the critical-error line (main.py 62)? -/
def LogMsg.is_critical : LogMsg → Bool
  | .critical _ => true
  | _ => false

/-- Outcomes of the external collaborators used by one run of
`VideoProcessor.run`: ffmpeg audio extraction (main.py 39-45), pydub
load + silence detection returning the audio length in ms and the
detected silence ranges in ms (main.py 48-53), shutil copy (main.py
82) and ffmpeg splice (main.py 95-101).  `Except.error` means the call
raised, carrying the exception's description; `temp_file_exists` is
whether `temp_audio.wav` exists when the `finally` block runs. -/
structure ExternalWorld where
  extract_result : Except String Unit
  detect_result : Except String (Nat × List (Nat × Nat))
  copy_result : Except String Unit
  splice_result : Except String Unit
  temp_file_exists : Bool

/-- Effects of `process_video_segments` after the segment computation
(main.py 80-101): the log line emitted and the outcome of the copy or
splice call taken on that branch. -/
def process_video_segments_effects (silence_ranges : List (ℚ × ℚ))
    (total_duration : ℚ) (copy_result splice_result : Except String Unit) :
    List LogMsg × Except String Unit :=
  let segments := process_video_segments silence_ranges total_duration
  if segments.isEmpty then
    ([LogMsg.no_silence], copy_result)
  else
    ([LogMsg.assembling segments.length], splice_result)

/-- The `try` block of `VideoProcessor.run` (main.py 37-60): the log
lines emitted in order and either success or the first raised failure.
Millisecond values are converted to seconds by division by 1000 as in
main.py 56-57. -/
def run_try_block (w : ExternalWorld) : List LogMsg × Except String Unit :=
  match w.extract_result with
  | .error e => ([LogMsg.extracting], .error e)
  | .ok _ =>
    match w.detect_result with
    | .error e => ([LogMsg.extracting, LogMsg.analyzing], .error e)
    | .ok (len_ms, ranges_ms) =>
      match process_video_segments_effects
          (ranges_ms.map (fun p => ((p.1 : ℚ) / 1000, (p.2 : ℚ) / 1000)))
          ((len_ms : ℚ) / 1000) w.copy_result w.splice_result with
      | (plogs, .ok _) =>
          ([LogMsg.extracting, LogMsg.analyzing] ++ plogs ++ [LogMsg.done], .ok ())
      | (plogs, .error e) =>
          ([LogMsg.extracting, LogMsg.analyzing] ++ plogs, .error e)

/-- Observable outcome of one `VideoProcessor.run` call. -/
structure RunResult where
  logs : List LogMsg
  temp_removed : Bool
  finished_emitted : Bool

/-- `VideoProcessor.run` (main.py 35-66): the `try/except/finally` —
on a failure of the body a single critical log line is appended
(main.py 61-62); the `finally` block removes the temporary audio file
when it exists and emits the `finished` signal on every path
(main.py 63-66). -/
def VideoProcessor_run (w : ExternalWorld) : RunResult :=
  { logs :=
      match (run_try_block w).2 with
      | .ok _ => (run_try_block w).1
      | .error e => (run_try_block w).1 ++ [LogMsg.critical e]
    temp_removed := w.temp_file_exists
    finished_emitted := true }

/-- A world whose ffmpeg extraction step raises. -/
def extraction_failure_world : ExternalWorld :=
  { extract_result := Except.error "ffmpeg not found"
    detect_result := Except.ok (0, [])
    copy_result := Except.ok ()
    splice_result := Except.ok ()
    temp_file_exists := false }

/-- Outcome of `MainWindow.process_video` (main.py 258-272): either the
validation warning is appended and no processor is constructed, or a
`VideoProcessor` is constructed and started with the parsed
parameters, or an `int(...)` conversion raises uncaught. -/
inductive ProcessVideoOutcome
  | warned (msg : String)
  | started (input_path output_path : String) (threshold min_silence_len : Int)
  | conversion_fault (msg : String)
deriving DecidableEq

/-- The validation warning appended to the log (main.py 260). -/
def missing_paths_warning : String :=
  "⚠️ Selecione os caminhos de entrada e saída!"

/-- `MainWindow.process_video` (main.py 258-272).  An empty input or
output path (Python falsiness of the text fields) appends the warning
and returns without constructing a `VideoProcessor`; otherwise the two
numeric fields go through `int(...)` — modelled by the oracle
`int_conv`, whose failure propagates as an uncaught fault — and a
processor is constructed and started. -/
def MainWindow_process_video (int_conv : String → Except String Int)
    (input_text output_text threshold_text min_silence_text : String) :
    ProcessVideoOutcome :=
  if input_text = "" ∨ output_text = "" then
    .warned missing_paths_warning
  else
    match int_conv threshold_text with
    | .error m => .conversion_fault m
    | .ok t =>
      match int_conv min_silence_text with
      | .error m => .conversion_fault m
      | .ok m => .started input_text output_text t m

theorem mem_point_nil (x : ℚ) : ¬ mem_point x [] := by
  simp [mem_point]

theorem mem_point_cons {x : ℚ} {p : ℚ × ℚ} {l : List (ℚ × ℚ)} :
    mem_point x (p :: l) ↔ (p.1 ≤ x ∧ x < p.2) ∨ mem_point x l := by
  simp [mem_point]

theorem mem_point_singleton {x : ℚ} {p : ℚ × ℚ} :
    mem_point x [p] ↔ p.1 ≤ x ∧ x < p.2 := by
  simp [mem_point]

theorem loop_mem_bounds (S : List (ℚ × ℚ)) :
    ∀ (b T : ℚ),
      (∀ p ∈ S, b ≤ p.1 ∧ p.1 < p.2 ∧ p.2 ≤ T) →
      S.Pairwise (fun p q => p.2 ≤ q.1) →
      ∀ q ∈ process_video_segments_loop S b T, b ≤ q.1 ∧ q.1 < q.2 ∧ q.2 ≤ T := by
  induction S with
  | nil =>
    intro b T _ _ q hq
    simp only [process_video_segments_loop] at hq
    by_cases hb : b < T
    · rw [if_pos hb] at hq
      rcases List.mem_singleton.mp hq with rfl
      exact ⟨le_refl _, hb, le_refl _⟩
    · rw [if_neg hb] at hq
      simp at hq
  | cons hd tl ih =>
    obtain ⟨s, e⟩ := hd
    intro b T hmem hpw q hq
    obtain ⟨hbs, hse, heT⟩ := hmem (s, e) (List.mem_cons_self _ _)
    rw [List.pairwise_cons] at hpw
    have htl : ∀ p ∈ tl, e ≤ p.1 ∧ p.1 < p.2 ∧ p.2 ≤ T := fun p hp =>
      ⟨hpw.1 p hp, (hmem p (List.mem_cons_of_mem _ hp)).2⟩
    simp only [process_video_segments_loop] at hq
    by_cases hb : b < s
    · rw [if_pos hb] at hq
      rcases List.mem_cons.mp hq with rfl | hq'
      · exact ⟨le_refl _, hb, le_trans (le_of_lt hse) heT⟩
      · obtain ⟨h1, h2, h3⟩ := ih e T htl hpw.2 q hq'
        exact ⟨by linarith, h2, h3⟩
    · rw [if_neg hb] at hq
      obtain ⟨h1, h2, h3⟩ := ih e T htl hpw.2 q hq
      exact ⟨by linarith, h2, h3⟩

theorem loop_pairwise (S : List (ℚ × ℚ)) :
    ∀ (b T : ℚ),
      (∀ p ∈ S, b ≤ p.1 ∧ p.1 < p.2 ∧ p.2 ≤ T) →
      S.Pairwise (fun p q => p.2 ≤ q.1) →
      (process_video_segments_loop S b T).Pairwise (fun p q => p.2 ≤ q.1) := by
  induction S with
  | nil =>
    intro b T _ _
    simp only [process_video_segments_loop]
    split
    · exact List.pairwise_singleton _ _
    · exact List.Pairwise.nil
  | cons hd tl ih =>
    obtain ⟨s, e⟩ := hd
    intro b T hmem hpw
    obtain ⟨hbs, hse, heT⟩ := hmem (s, e) (List.mem_cons_self _ _)
    rw [List.pairwise_cons] at hpw
    have htl : ∀ p ∈ tl, e ≤ p.1 ∧ p.1 < p.2 ∧ p.2 ≤ T := fun p hp =>
      ⟨hpw.1 p hp, (hmem p (List.mem_cons_of_mem _ hp)).2⟩
    simp only [process_video_segments_loop]
    by_cases hb : b < s
    · rw [if_pos hb, List.pairwise_cons]
      refine ⟨fun q hq => ?_, ih e T htl hpw.2⟩
      have h1 := (loop_mem_bounds tl e T htl hpw.2 q hq).1
      show s ≤ q.1
      linarith
    · rw [if_neg hb]
      exact ih e T htl hpw.2

theorem loop_cover (S : List (ℚ × ℚ)) :
    ∀ (b T : ℚ),
      (∀ p ∈ S, b ≤ p.1 ∧ p.1 < p.2 ∧ p.2 ≤ T) →
      S.Pairwise (fun p q => p.2 ≤ q.1) →
      ∀ x : ℚ, (b ≤ x ∧ x < T) ↔
        (mem_point x (process_video_segments_loop S b T) ∨ mem_point x S) := by
  induction S with
  | nil =>
    intro b T _ _ x
    simp only [process_video_segments_loop]
    by_cases hb : b < T
    · rw [if_pos hb]
      simp [mem_point]
    · rw [if_neg hb]
      simp only [mem_point_nil x, or_self, iff_false]
      rintro ⟨h1, h2⟩
      exact hb (lt_of_le_of_lt h1 h2)
  | cons hd tl ih =>
    obtain ⟨s, e⟩ := hd
    intro b T hmem hpw x
    obtain ⟨hbs, hse, heT⟩ := hmem (s, e) (List.mem_cons_self _ _)
    rw [List.pairwise_cons] at hpw
    have htl : ∀ p ∈ tl, e ≤ p.1 ∧ p.1 < p.2 ∧ p.2 ≤ T := fun p hp =>
      ⟨hpw.1 p hp, (hmem p (List.mem_cons_of_mem _ hp)).2⟩
    have ihx := ih e T htl hpw.2 x
    simp only [process_video_segments_loop]
    by_cases hb : b < s
    · rw [if_pos hb, mem_point_cons, mem_point_cons]
      simp only
      constructor
      · rintro ⟨hx1, hx2⟩
        by_cases h1 : x < s
        · exact Or.inl (Or.inl ⟨hx1, h1⟩)
        · push_neg at h1
          by_cases h2 : x < e
          · exact Or.inr (Or.inl ⟨h1, h2⟩)
          · push_neg at h2
            rcases ihx.mp ⟨h2, hx2⟩ with h | h
            · exact Or.inl (Or.inr h)
            · exact Or.inr (Or.inr h)
      · rintro ((⟨h1, h2⟩ | h) | (⟨h1, h2⟩ | h))
        · exact ⟨h1, by linarith⟩
        · obtain ⟨k1, k2⟩ := ihx.mpr (Or.inl h)
          exact ⟨by linarith, k2⟩
        · exact ⟨by linarith, by linarith⟩
        · obtain ⟨k1, k2⟩ := ihx.mpr (Or.inr h)
          exact ⟨by linarith, k2⟩
    · rw [if_neg hb, mem_point_cons]
      push_neg at hb
      simp only
      constructor
      · rintro ⟨hx1, hx2⟩
        by_cases h2 : x < e
        · exact Or.inr (Or.inl ⟨by linarith, h2⟩)
        · push_neg at h2
          rcases ihx.mp ⟨h2, hx2⟩ with h | h
          · exact Or.inl h
          · exact Or.inr (Or.inr h)
      · rintro (h | (⟨h1, h2⟩ | h))
        · obtain ⟨k1, k2⟩ := ihx.mpr (Or.inl h)
          exact ⟨by linarith, k2⟩
        · exact ⟨by linarith, by linarith⟩
        · obtain ⟨k1, k2⟩ := ihx.mpr (Or.inr h)
          exact ⟨by linarith, k2⟩

theorem loop_disjoint (S : List (ℚ × ℚ)) :
    ∀ (b T : ℚ),
      (∀ p ∈ S, b ≤ p.1 ∧ p.1 < p.2 ∧ p.2 ≤ T) →
      S.Pairwise (fun p q => p.2 ≤ q.1) →
      ∀ x : ℚ, mem_point x (process_video_segments_loop S b T) → mem_point x S → False := by
  induction S with
  | nil => intro b T _ _ x _ hS; exact mem_point_nil x hS
  | cons hd tl ih =>
    obtain ⟨s, e⟩ := hd
    intro b T hmem hpw x hK hS
    obtain ⟨hbs, hse, heT⟩ := hmem (s, e) (List.mem_cons_self _ _)
    rw [List.pairwise_cons] at hpw
    have htl : ∀ p ∈ tl, e ≤ p.1 ∧ p.1 < p.2 ∧ p.2 ≤ T := fun p hp =>
      ⟨hpw.1 p hp, (hmem p (List.mem_cons_of_mem _ hp)).2⟩
    rw [mem_point_cons] at hS
    simp only at hS
    simp only [process_video_segments_loop] at hK
    by_cases hb : b < s
    · rw [if_pos hb, mem_point_cons] at hK
      simp only at hK
      rcases hK with ⟨hk1, hk2⟩ | hK'
      · rcases hS with ⟨hs1, hs2⟩ | ⟨p, hp, hp1, hp2⟩
        · linarith
        · have := hpw.1 p hp
          simp only at this
          linarith
      · obtain ⟨q, hq, hq1, hq2⟩ := hK'
        have heq := (loop_mem_bounds tl e T htl hpw.2 q hq).1
        rcases hS with ⟨hs1, hs2⟩ | hS'
        · linarith
        · exact ih e T htl hpw.2 x ⟨q, hq, hq1, hq2⟩ hS'
    · rw [if_neg hb] at hK
      obtain ⟨q, hq, hq1, hq2⟩ := hK
      have heq := (loop_mem_bounds tl e T htl hpw.2 q hq).1
      rcases hS with ⟨hs1, hs2⟩ | hS'
      · linarith
      · exact ih e T htl hpw.2 x ⟨q, hq, hq1, hq2⟩ hS'

theorem roundtrip_loop (S : List (ℚ × ℚ)) :
    ∀ (b a T : ℚ), a < b → b ≤ T →
      (∀ p ∈ S, b < p.1 ∧ p.1 < p.2 ∧ p.2 ≤ T) →
      S.Pairwise (fun p q => p.2 < q.1) →
      process_video_segments_loop (process_video_segments_loop S b T) a T
        = (a, b) :: S := by
  induction S with
  | nil =>
    intro b a T hab hbT _ _
    simp only [process_video_segments_loop]
    by_cases hb : b < T
    · rw [if_pos hb]
      simp only [process_video_segments_loop]
      rw [if_pos hab, if_neg (lt_irrefl T)]
    · have hbt : b = T := le_antisymm hbT (not_lt.mp hb)
      rw [if_neg hb]
      simp only [process_video_segments_loop]
      rw [if_pos (by linarith : a < T), hbt]
  | cons hd tl ih =>
    obtain ⟨s, e⟩ := hd
    intro b a T hab hbT hmem hpw
    obtain ⟨hbs, hse, heT⟩ := hmem (s, e) (List.mem_cons_self _ _)
    rw [List.pairwise_cons] at hpw
    have htl : ∀ p ∈ tl, e < p.1 ∧ p.1 < p.2 ∧ p.2 ≤ T := fun p hp =>
      ⟨hpw.1 p hp, (hmem p (List.mem_cons_of_mem _ hp)).2⟩
    simp only [process_video_segments_loop]
    rw [if_pos hbs]
    simp only [process_video_segments_loop]
    rw [if_pos hab, ih e s T hse heT htl hpw.2]

theorem max_loop_eq (S : List (ℚ × ℚ)) :
    ∀ (b T : ℚ),
      (∀ p ∈ S, p.1 < p.2) →
      S.Chain' (fun p q => p.2 ≤ q.1) →
      (∀ p ∈ S.head?, b ≤ p.1) →
      process_video_segments_max_loop S b T = process_video_segments_loop S b T := by
  induction S with
  | nil => intro b T _ _ _; rfl
  | cons hd tl ih =>
    obtain ⟨s, e⟩ := hd
    intro b T hlt hch hhd
    rw [List.chain'_cons'] at hch
    have hbs : b ≤ s := hhd (s, e) (by simp)
    have hse : s < e := hlt (s, e) (List.mem_cons_self _ _)
    have hmax : max b e = e := max_eq_right (by linarith)
    simp only [process_video_segments_loop, process_video_segments_max_loop, hmax]
    rw [ih e T (fun p hp => hlt p (List.mem_cons_of_mem _ hp)) hch.2 hch.1]

theorem effects_logs_not_critical (s : List (ℚ × ℚ)) (T : ℚ)
    (cr sr : Except String Unit) :
    ((process_video_segments_effects s T cr sr).1).filter LogMsg.is_critical = [] := by
  simp only [process_video_segments_effects]
  split <;> simp [LogMsg.is_critical]

theorem run_try_block_not_critical (w : ExternalWorld) :
    ((run_try_block w).1).filter LogMsg.is_critical = [] := by
  rcases hex : w.extract_result with e | u
  · simp [run_try_block, hex, LogMsg.is_critical]
  · rcases hdet : w.detect_result with e | ⟨len_ms, ranges_ms⟩
    · simp [run_try_block, hex, hdet, LogMsg.is_critical]
    · rcases heff : process_video_segments_effects
          (ranges_ms.map (fun p => ((p.1 : ℚ) / 1000, (p.2 : ℚ) / 1000)))
          ((len_ms : ℚ) / 1000) w.copy_result w.splice_result with ⟨plogs, pres⟩
      have hpl : plogs.filter LogMsg.is_critical = [] := by
        have h := effects_logs_not_critical
          (ranges_ms.map (fun p => ((p.1 : ℚ) / 1000, (p.2 : ℚ) / 1000)))
          ((len_ms : ℚ) / 1000) w.copy_result w.splice_result
        rw [heff] at h
        exact h
      rcases pres with e | u <;>
        simp [run_try_block, hex, hdet, heff, List.filter_append, hpl,
          LogMsg.is_critical]

/-- C1: for every ordered, non-overlapping silence-interval sequence
(each interval with start < end, contained in [0, T]) and total
duration T ≥ 0, the keep segments computed by `process_video_segments`
are ordered and pairwise non-overlapping, each has start < end, and
together with the silence intervals they cover [0, T) with every point
in exactly one of the two families. -/
theorem C1_complement_partition (S : List (ℚ × ℚ)) (T : ℚ)
    (_hT : 0 ≤ T)
    (hS : ∀ p ∈ S, 0 ≤ p.1 ∧ p.1 < p.2 ∧ p.2 ≤ T)
    (hsorted : S.Pairwise (fun p q => p.2 ≤ q.1)) :
    (process_video_segments S T).Pairwise (fun p q => p.2 ≤ q.1) ∧
    (∀ p ∈ process_video_segments S T, p.1 < p.2) ∧
    (∀ x : ℚ, ((0 ≤ x ∧ x < T) ↔
        (mem_point x (process_video_segments S T) ∨ mem_point x S)) ∧
      ¬ (mem_point x (process_video_segments S T) ∧ mem_point x S)) :=
  ⟨loop_pairwise S 0 T hS hsorted,
    fun p hp => (loop_mem_bounds S 0 T hS hsorted p hp).2.1,
    fun x => ⟨loop_cover S 0 T hS hsorted x,
      fun h => loop_disjoint S 0 T hS hsorted x h.1 h.2⟩⟩

/-- Witness for C1 at S = [(2,4),(6,8)], T = 10. -/
theorem C1_witness :
    ((0:ℚ) ≤ 10 ∧
      (∀ p ∈ [((2:ℚ), (4:ℚ)), (6, 8)], 0 ≤ p.1 ∧ p.1 < p.2 ∧ p.2 ≤ 10) ∧
      ([((2:ℚ), (4:ℚ)), (6, 8)].Pairwise (fun p q => p.2 ≤ q.1))) ∧
    ((process_video_segments [((2:ℚ), (4:ℚ)), (6, 8)] 10).Pairwise
        (fun p q => p.2 ≤ q.1) ∧
      (∀ p ∈ process_video_segments [((2:ℚ), (4:ℚ)), (6, 8)] 10, p.1 < p.2) ∧
      (∀ x : ℚ, ((0 ≤ x ∧ x < 10) ↔
          (mem_point x (process_video_segments [((2:ℚ), (4:ℚ)), (6, 8)] 10) ∨
            mem_point x [((2:ℚ), (4:ℚ)), (6, 8)])) ∧
        ¬ (mem_point x (process_video_segments [((2:ℚ), (4:ℚ)), (6, 8)] 10) ∧
          mem_point x [((2:ℚ), (4:ℚ)), (6, 8)]))) :=
  ⟨⟨by norm_num, by norm_num, by norm_num [List.pairwise_cons]⟩,
    C1_complement_partition [((2:ℚ), (4:ℚ)), (6, 8)] 10 (by norm_num)
      (by norm_num) (by norm_num [List.pairwise_cons])⟩

/-- C2: the verbatim-copy shortcut of `process_video_segments` is taken
iff the computed keep-segment list is empty; with T > 0, an empty
silence input yields the single segment (0, T) and does not trigger the
shortcut, while the single silence interval (0, T) yields zero keep
segments and does trigger it. -/
theorem C2_copy_shortcut_iff (T : ℚ) (hT : 0 < T) :
    (∀ S : List (ℚ × ℚ),
      process_video_segments_action S T = SegmentsAction.copy_original ↔
        process_video_segments S T = []) ∧
    process_video_segments [] T = [(0, T)] ∧
    process_video_segments_action [] T ≠ SegmentsAction.copy_original ∧
    process_video_segments [(0, T)] T = [] ∧
    process_video_segments_action [(0, T)] T = SegmentsAction.copy_original := by
  have hiff : ∀ S : List (ℚ × ℚ),
      process_video_segments_action S T = SegmentsAction.copy_original ↔
        process_video_segments S T = [] := by
    intro S
    rcases hseg : process_video_segments S T with _ | ⟨p, l⟩ <;>
      simp [process_video_segments_action, hseg]
  have hempty : process_video_segments [] T = [(0, T)] := by
    simp only [process_video_segments, process_video_segments_loop]
    rw [if_pos hT]
  have hfull : process_video_segments [(0, T)] T = [] := by
    simp only [process_video_segments, process_video_segments_loop]
    rw [if_neg (lt_irrefl (0:ℚ)), if_neg (lt_irrefl T)]
  refine ⟨hiff, hempty, ?_, hfull, ?_⟩
  · intro h
    rw [hiff, hempty] at h
    simp at h
  · rw [hiff]
    exact hfull

/-- Witness for C2 at T = 10. -/
theorem C2_witness :
    ((0:ℚ) < 10) ∧
    ((∀ S : List (ℚ × ℚ),
      process_video_segments_action S 10 = SegmentsAction.copy_original ↔
        process_video_segments S 10 = []) ∧
    process_video_segments [] 10 = [((0:ℚ), 10)] ∧
    process_video_segments_action [] 10 ≠ SegmentsAction.copy_original ∧
    process_video_segments [((0:ℚ), 10)] 10 = [] ∧
    process_video_segments_action [((0:ℚ), 10)] 10 = SegmentsAction.copy_original) :=
  ⟨by norm_num, C2_copy_shortcut_iff 10 (by norm_num)⟩

/-- C3: round-trip — for an ordered, merged (gaps strictly positive)
silence sequence contained in [0, T], complementing the keep segments
produced by `process_video_segments` against the same total duration
reproduces the original silence intervals exactly. -/
theorem C3_roundtrip (S : List (ℚ × ℚ)) (T : ℚ)
    (hS : ∀ p ∈ S, 0 ≤ p.1 ∧ p.1 < p.2 ∧ p.2 ≤ T)
    (hmerged : S.Pairwise (fun p q => p.2 < q.1)) :
    process_video_segments (process_video_segments S T) T = S := by
  rcases S with _ | ⟨⟨s, e⟩, tl⟩
  · simp only [process_video_segments, process_video_segments_loop]
    by_cases hT : (0:ℚ) < T
    · rw [if_pos hT]
      simp only [process_video_segments_loop]
      rw [if_neg (lt_irrefl (0:ℚ)), if_neg (lt_irrefl T)]
    · rw [if_neg hT]
      simp only [process_video_segments_loop]
      rw [if_neg hT]
  · obtain ⟨hs0, hse, heT⟩ := hS (s, e) (List.mem_cons_self _ _)
    rw [List.pairwise_cons] at hmerged
    have htl : ∀ p ∈ tl, e < p.1 ∧ p.1 < p.2 ∧ p.2 ≤ T := fun p hp =>
      ⟨hmerged.1 p hp, (hS p (List.mem_cons_of_mem _ hp)).2⟩
    simp only [process_video_segments]
    by_cases h0 : (0:ℚ) < s
    · simp only [process_video_segments_loop]
      rw [if_pos h0]
      simp only [process_video_segments_loop]
      rw [if_neg (lt_irrefl (0:ℚ))]
      exact roundtrip_loop tl e s T hse heT htl hmerged.2
    · have hs00 : s = 0 := le_antisymm (not_lt.mp h0) hs0
      subst hs00
      simp only [process_video_segments_loop]
      rw [if_neg h0]
      exact roundtrip_loop tl e 0 T (by linarith) heT htl hmerged.2

/-- Witness for C3 at S = [(2,4),(6,8)], T = 10. -/
theorem C3_witness :
    ((∀ p ∈ [((2:ℚ), (4:ℚ)), (6, 8)], 0 ≤ p.1 ∧ p.1 < p.2 ∧ p.2 ≤ 10) ∧
      ([((2:ℚ), (4:ℚ)), (6, 8)].Pairwise (fun p q => p.2 < q.1))) ∧
    process_video_segments (process_video_segments [((2:ℚ), (4:ℚ)), (6, 8)] 10) 10
      = [((2:ℚ), (4:ℚ)), (6, 8)] :=
  ⟨⟨by norm_num, by norm_num [List.pairwise_cons]⟩,
    C3_roundtrip [((2:ℚ), (4:ℚ)), (6, 8)] 10 (by norm_num)
      (by norm_num [List.pairwise_cons])⟩

/-- C4 counterexample: the silence sequence [(0,5), (6,4)] is pre-sorted
and non-overlapping in the stated sense (consecutive intervals satisfy
end ≤ next start: 5 ≤ 6), yet the plain-assignment loop and the
defensive max-variant produce different keep segments for T = 10, so
sortedness and non-overlap alone do not make the two variants agree. -/
theorem C4_counterexample :
    ([((0:ℚ), 5), (6, 4)].Chain' (fun p q => p.2 ≤ q.1)) ∧
    process_video_segments_max [((0:ℚ), 5), (6, 4)] 10 ≠
      process_video_segments [((0:ℚ), 5), (6, 4)] 10 := by
  constructor
  · norm_num [List.chain'_cons]
  · norm_num [process_video_segments, process_video_segments_max,
      process_video_segments_loop, process_video_segments_max_loop]

/-- C4 (amended): for a pre-sorted, non-overlapping silence sequence
whose intervals each satisfy 0 ≤ start < end (the SilenceInterval
invariant), the plain `last_end = end` loop of the source produces
exactly the same keep segments as the defensive
`last_end = max(last_end, end)` variant. -/
theorem C4_plain_eq_max (S : List (ℚ × ℚ)) (T : ℚ)
    (hS : ∀ p ∈ S, 0 ≤ p.1 ∧ p.1 < p.2)
    (hch : S.Chain' (fun p q => p.2 ≤ q.1)) :
    process_video_segments_max S T = process_video_segments S T :=
  max_loop_eq S 0 T (fun p hp => (hS p hp).2) hch
    (fun p hp => (hS p (List.mem_of_mem_head? hp)).1)

/-- Witness for C4 (amended) at S = [(2,4),(6,8)], T = 10. -/
theorem C4_witness :
    ((∀ p ∈ [((2:ℚ), (4:ℚ)), (6, 8)], 0 ≤ p.1 ∧ p.1 < p.2) ∧
      ([((2:ℚ), (4:ℚ)), (6, 8)].Chain' (fun p q => p.2 ≤ q.1))) ∧
    process_video_segments_max [((2:ℚ), (4:ℚ)), (6, 8)] 10 =
      process_video_segments [((2:ℚ), (4:ℚ)), (6, 8)] 10 :=
  ⟨⟨by norm_num, by norm_num [List.chain'_cons]⟩,
    C4_plain_eq_max [((2:ℚ), (4:ℚ)), (6, 8)] 10 (by norm_num)
      (by norm_num [List.chain'_cons])⟩

/-- C5: empty silence input — for T > 0 the algorithm yields the single
keep segment (0, T), and for T = 0 it yields no keep segments. -/
theorem C5_empty_silence (T : ℚ) :
    (0 < T → process_video_segments [] T = [(0, T)]) ∧
    (T = 0 → process_video_segments [] T = []) := by
  constructor
  · intro hT
    simp only [process_video_segments, process_video_segments_loop]
    rw [if_pos hT]
  · rintro rfl
    simp [process_video_segments, process_video_segments_loop]

/-- Witness for C5 at T = 7.5 and T = 0. -/
theorem C5_witness :
    ((0:ℚ) < 15 / 2 ∧
      process_video_segments [] (15 / 2) = [((0:ℚ), 15 / 2)]) ∧
    process_video_segments [] 0 = [] :=
  ⟨⟨by norm_num, (C5_empty_silence (15 / 2)).1 (by norm_num)⟩,
    (C5_empty_silence 0).2 rfl⟩

/-- C6: concrete scenarios — S = [(2,4),(6,8)], T = 10 yields
[(0,2),(4,6),(8,10)]; S = [(0,3)], T = 5 yields [(3,5)]. -/
theorem C6_scenarios :
    process_video_segments [((2:ℚ), (4:ℚ)), (6, 8)] 10
      = [((0:ℚ), (2:ℚ)), (4, 6), (8, 10)] ∧
    process_video_segments [((0:ℚ), (3:ℚ))] 5 = [((3:ℚ), (5:ℚ))] := by
  constructor <;>
    norm_num [process_video_segments, process_video_segments_loop]

/-- C7: `VideoProcessor.run` removes the temporary audio file when it
exists and emits the completion signal on every path; and for every
failure raised during extraction, detection or splicing, its log
output carries exactly one critical-error line, the one holding that
failure's description. -/
theorem C7_run_error_handling (w : ExternalWorld) :
    (VideoProcessor_run w).temp_removed = w.temp_file_exists ∧
    (VideoProcessor_run w).finished_emitted = true ∧
    ∀ e : String, (run_try_block w).2 = Except.error e →
      (VideoProcessor_run w).logs.filter LogMsg.is_critical
        = [LogMsg.critical e] := by
  refine ⟨rfl, rfl, fun e hfail => ?_⟩
  have h1 := run_try_block_not_critical w
  simp only [VideoProcessor_run, hfail]
  simp [List.filter_append, h1, LogMsg.is_critical]

/-- Witness for C7 on a run whose extraction step fails. -/
theorem C7_witness :
    (run_try_block extraction_failure_world).2
        = Except.error "ffmpeg not found" ∧
    ((VideoProcessor_run extraction_failure_world).temp_removed
        = extraction_failure_world.temp_file_exists ∧
      (VideoProcessor_run extraction_failure_world).finished_emitted = true ∧
      (VideoProcessor_run extraction_failure_world).logs.filter
          LogMsg.is_critical = [LogMsg.critical "ffmpeg not found"]) :=
  ⟨rfl,
    ⟨(C7_run_error_handling extraction_failure_world).1,
      (C7_run_error_handling extraction_failure_world).2.1,
      (C7_run_error_handling extraction_failure_world).2.2
        "ffmpeg not found" rfl⟩⟩

/-- C8: when the input path or the output path is empty, a user-visible
log line is appended and no processing job is started — the outcome is
the warning, never a started processor — and no uncaught fault
escapes, so the application does not terminate. -/
theorem C8_empty_path_validation (int_conv : String → Except String Int)
    (input_text output_text threshold_text min_silence_text : String)
    (h : input_text = "" ∨ output_text = "") :
    MainWindow_process_video int_conv input_text output_text
        threshold_text min_silence_text
      = ProcessVideoOutcome.warned missing_paths_warning ∧
    (∀ i o t m,
      MainWindow_process_video int_conv input_text output_text
          threshold_text min_silence_text
        ≠ ProcessVideoOutcome.started i o t m) ∧
    (∀ m,
      MainWindow_process_video int_conv input_text output_text
          threshold_text min_silence_text
        ≠ ProcessVideoOutcome.conversion_fault m) := by
  have h1 : MainWindow_process_video int_conv input_text output_text
      threshold_text min_silence_text
      = ProcessVideoOutcome.warned missing_paths_warning := by
    unfold MainWindow_process_video
    rw [if_pos h]
  refine ⟨h1, fun i o t m hc => ?_, fun m hc => ?_⟩ <;>
    rw [h1] at hc <;> exact ProcessVideoOutcome.noConfusion hc

/-- Witness for C8 with an empty input path. -/
theorem C8_witness :
    (("" : String) = "" ∨ ("out.mp4" : String) = "") ∧
    (MainWindow_process_video (fun _ => Except.ok 0) "" "out.mp4" "-40" "500"
        = ProcessVideoOutcome.warned missing_paths_warning ∧
      (∀ i o t m,
        MainWindow_process_video (fun _ => Except.ok 0) "" "out.mp4" "-40" "500"
          ≠ ProcessVideoOutcome.started i o t m) ∧
      (∀ m,
        MainWindow_process_video (fun _ => Except.ok 0) "" "out.mp4" "-40" "500"
          ≠ ProcessVideoOutcome.conversion_fault m)) :=
  ⟨Or.inl rfl,
    C8_empty_path_validation (fun _ => Except.ok 0) "" "out.mp4" "-40" "500"
      (Or.inl rfl)⟩

/-- C9: with no silence intervals and total duration 0 the computed
keep-segment list is empty, so the verbatim-copy shortcut fires and the
"no silence detected" log line is emitted. -/
theorem C9_zero_duration_no_silence :
    process_video_segments [] 0 = [] ∧
    process_video_segments_action [] 0 = SegmentsAction.copy_original ∧
    (process_video_segments_effects [] 0 (Except.ok ()) (Except.ok ())).1
      = [LogMsg.no_silence] := by
  refine ⟨rfl, rfl, rfl⟩

/-- C10: every keep segment emitted for an ordered, non-overlapping
silence sequence contained in [0, T] satisfies 0 ≤ start < end ≤ T. -/
theorem C10_segment_bounds (S : List (ℚ × ℚ)) (T : ℚ)
    (_hT : 0 ≤ T)
    (hS : ∀ p ∈ S, 0 ≤ p.1 ∧ p.1 < p.2 ∧ p.2 ≤ T)
    (hsorted : S.Pairwise (fun p q => p.2 ≤ q.1)) :
    ∀ p ∈ process_video_segments S T, 0 ≤ p.1 ∧ p.1 < p.2 ∧ p.2 ≤ T :=
  loop_mem_bounds S 0 T hS hsorted

/-- Witness for C10 at S = [(0,3)], T = 5. -/
theorem C10_witness :
    ((0:ℚ) ≤ 5 ∧
      (∀ p ∈ [((0:ℚ), (3:ℚ))], 0 ≤ p.1 ∧ p.1 < p.2 ∧ p.2 ≤ 5) ∧
      ([((0:ℚ), (3:ℚ))].Pairwise (fun p q => p.2 ≤ q.1))) ∧
    (∀ p ∈ process_video_segments [((0:ℚ), (3:ℚ))] 5,
      0 ≤ p.1 ∧ p.1 < p.2 ∧ p.2 ≤ 5) :=
  ⟨⟨by norm_num, by norm_num, by norm_num [List.pairwise_cons]⟩,
    C10_segment_bounds [((0:ℚ), (3:ℚ))] 5 (by norm_num) (by norm_num)
      (by norm_num [List.pairwise_cons])⟩
